import Mathlib

/-!
# Verification of the hex-grid geometry engine of `ttrpg-hex-crawl-resources`

Shallow embedding of the geometry core of `src/webapp/src/App.tsx` (final
version of the file): `pointInPolygon`, the include/exclude mask evaluator,
`overlayHexGrid`, `computeHexGrid` and `annotateHexCoords`.

Modelling conventions:
* JavaScript floating-point numbers are modelled as exact numbers: the purely
  rational parts of the code are embedded over an arbitrary linear ordered
  field `α` (instantiable at `ℚ`, where everything evaluates by `decide`),
  while the parts that use `Math.sqrt(3)`, `Math.cos` and `Math.sin` are
  embedded over `ℝ` with `Real.sqrt`, `Real.cos`, `Real.sin`.
* The `while` loops of the renderer have real-valued guards and need not
  terminate (and indeed do not for degenerate scale parameters), so they are
  embedded with an explicit fuel parameter; a run is a faithful, complete
  model of the JavaScript loop exactly when its `finished` flag is `true`.
  A finished run is independent of the (sufficiently large) fuel used.
-/

namespace HexCrawl

/-- `interface Point { x: number; y: number }` (App.tsx line 446). -/
structure Point (α : Type) where
  x : α
  y : α
deriving DecidableEq, Repr

/-- The crossing test for one edge of the ray-casting loop of
`pointInPolygon` (App.tsx lines 478-479): the edge `(vi, vj)` straddles the
horizontal line through `p` and the edge's x-intercept at that height lies
strictly to the right of `p`.  In JavaScript a division by `yj - yi = 0`
yields an infinity, but the straddle conjunct is already false in that case;
in `α` the division yields `0`, equally unconsulted. -/
def pipCross {α : Type} [LinearOrderedField α] (p vi vj : Point α) : Bool :=
  (decide (vi.y > p.y) != decide (vj.y > p.y)) &&
    decide (p.x < (vj.x - vi.x) * (p.y - vi.y) / (vj.y - vi.y) + vi.x)

/-- One iteration of the `for (let i = 0, j = vs.length - 1; i < vs.length; j = i++)`
loop of `pointInPolygon` (App.tsx lines 474-481): `j` is the wrapping
predecessor of `i`, and the `inside` flag is toggled on a crossing. -/
def pipStep {α : Type} [LinearOrderedField α] (p : Point α) (vs : List (Point α))
    (inside : Bool) (i : ℕ) : Bool :=
  let j := if i = 0 then vs.length - 1 else i - 1
  if pipCross p (vs.getD i ⟨0, 0⟩) (vs.getD j ⟨0, 0⟩) then !inside else inside

/-- `function pointInPolygon(point, vs)` (App.tsx lines 471-483):
even-odd ray-casting point-in-polygon test. -/
def pointInPolygon {α : Type} [LinearOrderedField α] (p : Point α)
    (vs : List (Point α)) : Bool :=
  (List.range vs.length).foldl (pipStep p vs) false

/-- The crossing condition written the way the specification phrases it: the
edge straddles `p`'s y-coordinate and `p.x` is strictly less than the edge's
x-intercept `xi + (xj - xi)·(y - yi)/(yj - yi)` at height `y`. -/
def specCross {α : Type} [LinearOrderedField α] (p vi vj : Point α) : Bool :=
  (decide (vi.y > p.y) != decide (vj.y > p.y)) &&
    decide (p.x < vi.x + (vj.x - vi.x) * (p.y - vi.y) / (vj.y - vi.y))

/-- The number of edge crossings counted by the ray-casting loop, per the
specification's description. -/
def crossingCount {α : Type} [LinearOrderedField α] (p : Point α)
    (vs : List (Point α)) : ℕ :=
  (List.range vs.length).countP fun i =>
    specCross p (vs.getD i ⟨0, 0⟩)
      (vs.getD (if i = 0 then vs.length - 1 else i - 1) ⟨0, 0⟩)

/-- The mask evaluator shared verbatim by `overlayHexGrid` (App.tsx lines
538-546) and `annotateHexCoords` (lines 642-650): a hex is drawn only if
every vertex passes, and a vertex fails exactly when some exclude polygon
contains it and no include polygon rescues it. -/
def shouldDrawHex {α : Type} [LinearOrderedField α] (points : List (Point α))
    (polygonsToSkip polygonsToInclude : List (List (Point α))) : Bool :=
  points.all fun pt =>
    if polygonsToSkip.any fun polygon => pointInPolygon pt polygon then
      if polygonsToInclude.any fun polygon => pointInPolygon pt polygon then
        true
      else
        false
    else
      true

/-! ### Basic lemmas about the mask and the ray-casting loop -/

/-- The specification's crossing condition coincides with the code's: the two
x-intercept expressions differ only by commutativity of addition. -/
theorem specCross_eq_pipCross {α : Type} [LinearOrderedField α]
    (p vi vj : Point α) :
    specCross p vi vj = pipCross p vi vj := by
  unfold specCross pipCross
  have h : vi.x + (vj.x - vi.x) * (p.y - vi.y) / (vj.y - vi.y) =
      (vj.x - vi.x) * (p.y - vi.y) / (vj.y - vi.y) + vi.x := add_comm _ _
  rw [h]

/-- A fold that conditionally toggles a flag computes the parity of the
number of toggles. -/
theorem foldl_toggle_parity {β : Type} (f : β → Bool) :
    ∀ (l : List β) (b : Bool),
      l.foldl (fun ins i => if f i then !ins else ins) b =
        (b != decide (l.countP f % 2 = 1)) := by
  intro l
  induction l with
  | nil => intro b; simp
  | cons a t ih =>
    intro b
    have h2 : ∀ n : ℕ, decide ((n + 1) % 2 = 1) = !decide (n % 2 = 1) := by
      intro n
      rcases Nat.even_or_odd n with he | ho
      · have hn : n % 2 = 0 := Nat.even_iff.mp he
        simp [Nat.add_mod, hn]
      · have hn : n % 2 = 1 := Nat.odd_iff.mp ho
        simp [Nat.add_mod, hn]
    rw [List.foldl_cons, List.countP_cons]
    by_cases h : f a = true
    · rw [if_pos h, if_pos h, ih, h2]
      cases b <;> cases decide (t.countP f % 2 = 1) <;> rfl
    · rw [if_neg h, if_neg h, add_zero, ih]

theorem pointInPolygon_eq_parity {α : Type} [LinearOrderedField α]
    (p : Point α) (vs : List (Point α)) :
    pointInPolygon p vs = decide (crossingCount p vs % 2 = 1) := by
  unfold pointInPolygon crossingCount
  simp only [specCross_eq_pipCross]
  have hstep : pipStep p vs = fun ins i =>
      if pipCross p (vs.getD i ⟨0, 0⟩)
          (vs.getD (if i = 0 then vs.length - 1 else i - 1) ⟨0, 0⟩) then
        !ins
      else ins := by
    funext ins i
    simp [pipStep]
  rw [hstep, foldl_toggle_parity
    (fun i => pipCross p (vs.getD i ⟨0, 0⟩)
      (vs.getD (if i = 0 then vs.length - 1 else i - 1) ⟨0, 0⟩))]
  simp

/-- The crossing test is insensitive to the orientation of the edge: both
straddle tests agree, and when an edge straddles `p`'s height its two
endpoints have distinct y-coordinates, so the two x-intercept expressions
denote the same point of the edge. -/
theorem pipCross_symm {α : Type} [LinearOrderedField α] (p a b : Point α) :
    pipCross p a b = pipCross p b a := by
  unfold pipCross
  by_cases h1 : a.y > p.y <;> by_cases h2 : b.y > p.y
  · simp [h1, h2]
  · have hne : b.y - a.y ≠ 0 := by
      intro hzero
      rw [sub_eq_zero] at hzero
      exact h2 (hzero ▸ h1)
    have hne2 : a.y - b.y ≠ 0 := by
      intro hzero
      rw [sub_eq_zero] at hzero
      exact hne (by rw [hzero, sub_self])
    have hx : (b.x - a.x) * (p.y - a.y) / (b.y - a.y) + a.x =
        (a.x - b.x) * (p.y - b.y) / (a.y - b.y) + b.x := by
      field_simp
      ring
    simp [h1, h2, hx]
  · have hne : a.y - b.y ≠ 0 := by
      intro hzero
      rw [sub_eq_zero] at hzero
      exact h1 (hzero ▸ h2)
    have hne2 : b.y - a.y ≠ 0 := by
      intro hzero
      rw [sub_eq_zero] at hzero
      exact hne (by rw [hzero, sub_self])
    have hx : (b.x - a.x) * (p.y - a.y) / (b.y - a.y) + a.x =
        (a.x - b.x) * (p.y - b.y) / (a.y - b.y) + b.x := by
      field_simp
      ring
    simp [h1, h2, hx]
  · simp [h1, h2]

/-- A polygon with fewer than three vertices contains no point under the
ray-casting test: the empty loop, the single self-edge, and the doubled
two-vertex edge all report `false`. -/
theorem pointInPolygon_degenerate {α : Type} [LinearOrderedField α]
    (p : Point α) (vs : List (Point α)) (h : vs.length < 3) :
    pointInPolygon p vs = false := by
  match vs, h with
  | [], _ => rfl
  | [a], _ =>
    show List.foldl (pipStep p [a]) false (List.range 1) = false
    have hr : List.range 1 = [0] := rfl
    rw [hr, List.foldl_cons, List.foldl_nil]
    simp [pipStep, pipCross]
  | [a, b], _ =>
    show List.foldl (pipStep p [a, b]) false (List.range 2) = false
    have hr : List.range 2 = [0, 1] := rfl
    rw [hr, List.foldl_cons, List.foldl_cons, List.foldl_nil]
    have h0 : ∀ ins : Bool, pipStep p [a, b] ins 0 =
        if pipCross p a b then !ins else ins := by
      intro ins; simp [pipStep]
    have h1 : ∀ ins : Bool, pipStep p [a, b] ins 1 =
        if pipCross p a b then !ins else ins := by
      intro ins
      have hstep : pipStep p [a, b] ins 1 =
          if pipCross p b a then !ins else ins := by
        simp [pipStep]
      rw [hstep, ← pipCross_symm p a b]
    rw [h0, h1]
    cases hc : pipCross p a b <;> simp [hc]

/-- The per-vertex pass rule, as the specification states it: a vertex is
rejected exactly when some exclude polygon contains it while no include
polygon contains it. -/
def vertexPasses {α : Type} [LinearOrderedField α] (pt : Point α)
    (skip incl : List (List (Point α))) : Prop :=
  ¬((∃ poly ∈ skip, pointInPolygon pt poly = true) ∧
      ¬(∃ poly ∈ incl, pointInPolygon pt poly = true))

/-- The code's nested-conditional mask agrees with the specification's
per-vertex rule, reduced with logical AND across all vertices. -/
theorem shouldDrawHex_iff {α : Type} [LinearOrderedField α]
    (points : List (Point α)) (skip incl : List (List (Point α))) :
    shouldDrawHex points skip incl = true ↔
      ∀ pt ∈ points, vertexPasses pt skip incl := by
  unfold shouldDrawHex vertexPasses
  rw [List.all_eq_true]
  refine forall₂_congr fun pt _ => ?_
  by_cases hs : (skip.any fun polygon => pointInPolygon pt polygon) = true
  · by_cases hi : (incl.any fun polygon => pointInPolygon pt polygon) = true
    · rw [if_pos hs, if_pos hi]
      rw [List.any_eq_true] at hs hi
      simp only [true_iff]
      intro hcon
      exact hcon.2 hi
    · rw [if_pos hs, if_neg hi]
      rw [List.any_eq_true] at hs
      rw [List.any_eq_true] at hi
      simp only [Bool.false_eq_true, false_iff, not_not]
      exact ⟨hs, hi⟩
  · rw [if_neg hs]
    rw [List.any_eq_true] at hs
    simp only [true_iff]
    intro hcon
    exact hs hcon.1

/-- Enlarging the include set or shrinking the exclude set can only keep a
drawn hex drawn: the mask decision is monotone. -/
theorem shouldDrawHex_mono {α : Type} [LinearOrderedField α]
    (points : List (Point α)) (skip skip' incl incl' : List (List (Point α)))
    (hskip : ∀ P ∈ skip', P ∈ skip) (hincl : ∀ P ∈ incl, P ∈ incl')
    (h : shouldDrawHex points skip incl = true) :
    shouldDrawHex points skip incl' = true ∧
      shouldDrawHex points skip' incl = true := by
  rw [shouldDrawHex_iff] at h
  constructor
  · rw [shouldDrawHex_iff]
    intro pt hpt
    have hv := h pt hpt
    intro hcon
    apply hv
    refine ⟨hcon.1, fun hb => hcon.2 ?_⟩
    obtain ⟨poly, hmem, hin⟩ := hb
    exact ⟨poly, hincl poly hmem, hin⟩
  · rw [shouldDrawHex_iff]
    intro pt hpt
    have hv := h pt hpt
    intro hcon
    apply hv
    obtain ⟨⟨poly, hmem, hin⟩, hb⟩ := hcon
    exact ⟨⟨poly, hskip poly hmem, hin⟩, hb⟩

/-- Appending a degenerate polygon (fewer than three vertices) to either
polygon set leaves every mask decision unchanged. -/
theorem shouldDrawHex_append_degenerate {α : Type} [LinearOrderedField α]
    (points : List (Point α)) (skip incl : List (List (Point α)))
    (vs : List (Point α)) (h : vs.length < 3) :
    shouldDrawHex points (skip ++ [vs]) incl = shouldDrawHex points skip incl ∧
      shouldDrawHex points skip (incl ++ [vs]) =
        shouldDrawHex points skip incl := by
  have hfalse : ∀ pt : Point α, pointInPolygon pt vs = false := fun pt =>
    pointInPolygon_degenerate pt vs h
  have hany : ∀ (l : List (List (Point α))) (pt : Point α),
      ((l ++ [vs]).any fun polygon => pointInPolygon pt polygon) =
        (l.any fun polygon => pointInPolygon pt polygon) := by
    intro l pt
    simp [List.any_append, hfalse pt]
  constructor <;> · unfold shouldDrawHex; simp only [hany]

/-! ### The renderer `overlayHexGrid` (App.tsx lines 485-563), over `ℝ`

The loops have real-valued guards, so they are embedded with a fuel
parameter.  The second component of each result is `true` exactly when the
loop reached its exit condition within the given fuel; only such finished
runs model the JavaScript loop, whose output they then reproduce exactly
(a finished run is unchanged by further fuel). -/

/-- The five spacing values derived from the scale parameters. -/
structure Spacing where
  hexRadius : ℝ
  hexWidth : ℝ
  hexHeight : ℝ
  hSpacing : ℝ
  vSpacing : ℝ

/-- The spacing derivation of `overlayHexGrid` (App.tsx lines 495-500):
`hexDiameter = ppm·miles`, `hexRadius = hexDiameter/2`. -/
noncomputable def overlaySpacing (ppm miles : ℝ) : Spacing :=
  let hexDiameter := ppm * miles
  let hexRadius := hexDiameter / 2
  let hexWidth := 2 * hexRadius
  let hexHeight := Real.sqrt 3 * hexRadius
  let hSpacing := 0.75 * hexWidth
  let vSpacing := hexHeight
  ⟨hexRadius, hexWidth, hexHeight, hSpacing, vSpacing⟩

/-- The spacing derivation of `computeHexGrid` (App.tsx lines 576-580).
Note: the source sets `hexRadius = ppm * miles` here, *without* the halving
used by `overlayHexGrid`. -/
noncomputable def computeGridSpacing (ppm miles : ℝ) : Spacing :=
  let hexRadius := ppm * miles
  let hexWidth := 2 * hexRadius
  let hexHeight := Real.sqrt 3 * hexRadius
  let hSpacing := 0.75 * hexWidth
  let vSpacing := hexHeight
  ⟨hexRadius, hexWidth, hexHeight, hSpacing, vSpacing⟩

/-- The vertex formula of the hexagon loop body (App.tsx lines 523-528):
vertex `i` of a hex of radius `hexRadius` centered at `(cx, cy)`, at angle
`i·60°` (in radians, `i·60·π/180`) counter-clockwise from the positive
x-axis.  The conditional half-height shift of lines 530-533 translates the
center and all six vertices together and is applied by the grid embedding
below. -/
noncomputable def hexVertex (cx cy hexRadius : ℝ) (i : ℕ) : Point ℝ :=
  let theta : ℝ := (i : ℝ) * 60 * (Real.pi / 180)
  ⟨cx + hexRadius * Real.cos theta, cy + hexRadius * Real.sin theta⟩

/-- One enumerated hex of `overlayHexGrid`: its unshifted column position
`x`, its center y-coordinate `y` (row base plus the per-hex half-height
shift), the row index and column counter, the six computed vertices, and
whether the mask evaluator let it be stroked (the specification's
`accepted` flag). -/
structure OverlayHex where
  x : ℝ
  y : ℝ
  row : ℕ
  counter : ℕ
  points : List (Point ℝ)
  drawn : Bool

/-- The body of the inner (column) loop of `overlayHexGrid` (App.tsx lines
519-556) for one hex: the six vertices
`(x + hexRadius·cos θᵢ, yBase + hexRadius·sin θᵢ [+ hexHeight/2])`, with the
half-height shift applied when the incremented column counter is even, and
the mask decision on those vertices. -/
noncomputable def overlayHexAt (hexRadius hexHeight : ℝ)
    (skip incl : List (List (Point ℝ))) (yBase : ℝ) (row : ℕ)
    (x : ℝ) (counter1 : ℕ) : OverlayHex :=
  let shift : ℝ := if counter1 % 2 == 0 then hexHeight / 2 else 0
  let points : List (Point ℝ) := (List.range 6).map fun i =>
    let theta : ℝ := (i : ℝ) * 60 * (Real.pi / 180)
    ⟨x + hexRadius * Real.cos theta, yBase + hexRadius * Real.sin theta + shift⟩
  ⟨x, yBase + shift, row, counter1, points, shouldDrawHex points skip incl⟩

/-- The inner `while (x < width + hSpacing * 2)` loop of `overlayHexGrid`
(App.tsx lines 518-559): advance `x` by `hSpacing` per hex, incrementing the
half-height-offset counter first. -/
noncomputable def overlayCols (w hexRadius hexHeight hSpacing : ℝ)
    (skip incl : List (List (Point ℝ))) (yBase : ℝ) (row : ℕ) :
    ℕ → ℝ → ℕ → List OverlayHex × Bool
  | 0, _, _ => ([], false)
  | fuel + 1, x, counter =>
    if x < w + hSpacing * 2 then
      let counter1 := counter + 1
      let rest := overlayCols w hexRadius hexHeight hSpacing skip incl yBase
        row fuel (x + hSpacing) counter1
      (overlayHexAt hexRadius hexHeight skip incl yBase row x counter1 ::
        rest.1, rest.2)
    else ([], true)

/-- The outer `while (y < height + vSpacing)` loop of `overlayHexGrid`
(App.tsx lines 508-562): rows step by `vSpacing/2`, with odd row counters
shifted down a further `vSpacing/2` (the code's `yOffset`).  The JavaScript
`row` variable starts at `-1` and is incremented at the top of each
iteration; here the parameter `row` carries the already-incremented value,
starting at `0`. -/
noncomputable def overlayRows (w h : ℝ) (sp : Spacing)
    (skip incl : List (List (Point ℝ))) :
    ℕ → ℝ → ℕ → List OverlayHex × Bool
  | 0, _, _ => ([], false)
  | fuel + 1, y, row =>
    if y < h + sp.vSpacing then
      let yOffset : ℝ := if row % 2 == 0 then 0 else sp.vSpacing / 2
      let inner := overlayCols w sp.hexRadius sp.hexHeight sp.hSpacing skip
        incl (y + yOffset) row fuel 0 0
      let rest := overlayRows w h sp skip incl fuel (y + sp.vSpacing / 2)
        (row + 1)
      (inner.1 ++ rest.1, inner.2 && rest.2)
    else ([], true)

/-- `overlayHexGrid` (App.tsx lines 485-563): derive the spacing, then run
the row loop from `y = -vSpacing/2`. -/
noncomputable def overlayHexGrid (fuel : ℕ) (w h ppm miles : ℝ)
    (skip incl : List (List (Point ℝ))) : List OverlayHex × Bool :=
  let sp := overlaySpacing ppm miles
  overlayRows w h sp skip incl fuel (-sp.vSpacing / 2) 0

/-! ### The labeler's grid computation `computeHexGrid` (App.tsx lines
570-600) and `annotateHexCoords` (lines 603-657) -/

/-- One grid cell of `computeHexGrid`. -/
structure GHex where
  row : ℕ
  col : ℕ
  x : ℝ
  y : ℝ

/-- The inner `for (let x = xOffset; x < width + hSpacing; x += hSpacing)`
loop of `computeHexGrid` (App.tsx lines 588-591). -/
noncomputable def computeCols (w hSpacing : ℝ) (row : ℕ) (y : ℝ) :
    ℕ → ℝ → ℕ → List GHex × Bool
  | 0, _, _ => ([], false)
  | fuel + 1, x, col =>
    if x < w + hSpacing then
      let rest := computeCols w hSpacing row y fuel (x + hSpacing) (col + 1)
      (⟨row, col, x, y⟩ :: rest.1, rest.2)
    else ([], true)

/-- The outer `for (let y = -vSpacing/4; y < height + vSpacing;
y += vSpacing/4)` loop of `computeHexGrid` (App.tsx lines 584-592), with the
half-`hSpacing` x-offset on odd rows.  The returned `ℕ` is the row counter
at loop exit, i.e. the number of rows iterated (the code's final
`row + 1`). -/
noncomputable def computeRows (w h : ℝ) (sp : Spacing) :
    ℕ → ℝ → ℕ → List GHex × ℕ × Bool
  | 0, _, row => ([], row, false)
  | fuel + 1, y, row =>
    if y < h + sp.vSpacing then
      let xOffset : ℝ := if row % 2 == 1 then sp.hSpacing / 2 else 0
      let inner := computeCols w sp.hSpacing row y fuel xOffset 0
      let rest := computeRows w h sp fuel (y + sp.vSpacing / 4) (row + 1)
      (inner.1 ++ rest.1, rest.2.1, inner.2 && rest.2.2)
    else ([], row, true)

/-- The grid record returned by `computeHexGrid`. -/
structure HexGrid where
  hexes : List GHex
  rowCount : ℕ
  colCount : ℕ

/-- `computeHexGrid` (App.tsx lines 570-600).  `colCount` is the source's
`Math.max(...new Set(hexes.map(h => h.col)).values())`, the maximum column
index over all enumerated hexes; the JavaScript empty-list case
(`-Infinity`) cannot arise for the parameter ranges considered here and is
modelled as `0`. -/
noncomputable def computeHexGrid (fuel : ℕ) (w h ppm miles : ℝ) :
    HexGrid × Bool :=
  let sp := computeGridSpacing ppm miles
  let res := computeRows w h sp fuel (-sp.vSpacing / 4) 0
  let colCount := (res.1.map GHex.col).foldl max 0
  (⟨res.1, res.2.1, colCount⟩, res.2.2)

/-- One emitted coordinate label of `annotateHexCoords`: the hex's grid
indices, the axial coordinates `q`, `r`, the rendered text, and the position
at which `fillText` draws it. -/
structure LabelEntry where
  row : ℕ
  col : ℕ
  q : ℤ
  r : ℤ
  text : String
  x : ℝ
  y : ℝ

/-- The six vertices computed by `annotateHexCoords` for its mask test
(App.tsx lines 623-639): here `hexRadius = ppm * miles` (line 613, again
without the halving), the label offset is `hexHeight/8`, and the half-height
shift applies on even column indices. -/
noncomputable def annotatePoints (ppm miles : ℝ) (hx : GHex) :
    List (Point ℝ) :=
  let hexRadius := ppm * miles
  let hexHeight := Real.sqrt 3 * hexRadius
  let yOffset := hexHeight / 8
  (List.range 6).map fun i =>
    let theta : ℝ := (i : ℝ) * 60 * (Real.pi / 180)
    ⟨hx.x + hexRadius * Real.cos theta,
      hx.y + yOffset + hexRadius * Real.sin theta +
        (if hx.col % 2 == 0 then hexHeight / 2 else 0)⟩

/-- The label emitted for a surviving hex (App.tsx lines 653-655):
`q = col − centerCol`, `r = centerRow − row`, text `"q,r"`, drawn at
`(x, y + yOffset)`. -/
noncomputable def labelOf (ppm miles : ℝ) (centerRow centerCol : ℕ)
    (hx : GHex) : LabelEntry :=
  let hexRadius := ppm * miles
  let hexHeight := Real.sqrt 3 * hexRadius
  let yOffset := hexHeight / 8
  let q : ℤ := (hx.col : ℤ) - (centerCol : ℤ)
  let r : ℤ := (centerRow : ℤ) - (hx.row : ℤ)
  ⟨hx.row, hx.col, q, r, toString q ++ "," ++ toString r, hx.x, hx.y + yOffset⟩

/-- `annotateHexCoords` (App.tsx lines 603-657): for each hex of the grid,
evaluate the same mask rule as the renderer on the hex's six (label-path)
vertices; if the hex survives, emit its axial-coordinate label.  The
`forEach` with an early `return` on masked hexes is a `filterMap`. -/
noncomputable def annotateHexCoords (g : HexGrid) (ppm miles : ℝ)
    (skip incl : List (List (Point ℝ))) : List LabelEntry :=
  let centerRow := g.rowCount / 2
  let centerCol := g.colCount / 2
  g.hexes.filterMap fun hx =>
    if shouldDrawHex (annotatePoints ppm miles hx) skip incl then
      some (labelOf ppm miles centerRow centerCol hx)
    else
      none

/-! ### Drawn-flag and labeler structure lemmas -/

/-- Every hex record emitted by the inner renderer loop carries the mask
decision on its own six vertices as its `drawn` flag. -/
theorem overlayCols_drawn (w r hh hs : ℝ) (skip incl : List (List (Point ℝ)))
    (yBase : ℝ) (row : ℕ) :
    ∀ (fuel : ℕ) (x : ℝ) (counter : ℕ) (hex : OverlayHex),
      hex ∈ (overlayCols w r hh hs skip incl yBase row fuel x counter).1 →
      hex.drawn = shouldDrawHex hex.points skip incl := by
  intro fuel
  induction fuel with
  | zero => intro x counter hex hmem; simp [overlayCols] at hmem
  | succ fuel ih =>
    intro x counter hex hmem
    rw [overlayCols] at hmem
    by_cases hg : x < w + hs * 2
    · rw [if_pos hg] at hmem
      rcases List.mem_cons.mp hmem with heq | htail
      · subst heq
        rfl
      · exact ih (x + hs) (counter + 1) hex htail
    · rw [if_neg hg] at hmem
      simp at hmem

/-- Every hex record emitted by the renderer carries the mask decision on
its own six vertices as its `drawn` flag. -/
theorem overlayRows_drawn (w h : ℝ) (sp : Spacing)
    (skip incl : List (List (Point ℝ))) :
    ∀ (fuel : ℕ) (y : ℝ) (row : ℕ) (hex : OverlayHex),
      hex ∈ (overlayRows w h sp skip incl fuel y row).1 →
      hex.drawn = shouldDrawHex hex.points skip incl := by
  intro fuel
  induction fuel with
  | zero => intro y row hex hmem; simp [overlayRows] at hmem
  | succ fuel ih =>
    intro y row hex hmem
    rw [overlayRows] at hmem
    by_cases hg : y < h + sp.vSpacing
    · rw [if_pos hg] at hmem
      rcases List.mem_append.mp hmem with hin | hrest
      · exact overlayCols_drawn w sp.hexRadius sp.hexHeight sp.hSpacing skip
          incl _ row fuel 0 0 hex hin
      · exact ih _ _ hex hrest
    · rw [if_neg hg] at hmem
      simp at hmem

/-- The labeler emits exactly the labels of the hexes that survive its mask
test, in grid order. -/
theorem annotateHexCoords_eq_filter (g : HexGrid) (ppm miles : ℝ)
    (skip incl : List (List (Point ℝ))) :
    annotateHexCoords g ppm miles skip incl =
      (g.hexes.filter fun hx =>
          shouldDrawHex (annotatePoints ppm miles hx) skip incl).map
        (labelOf ppm miles (g.rowCount / 2) (g.colCount / 2)) := by
  simp only [annotateHexCoords]
  generalize g.hexes = l
  induction l with
  | nil => rfl
  | cons hx t ih =>
    rw [List.filterMap_cons, List.filter_cons]
    by_cases hd : shouldDrawHex (annotatePoints ppm miles hx) skip incl = true
    · rw [if_pos hd, if_pos hd, List.map_cons, ih]
    · rw [if_neg hd, if_neg hd, ih]

/-! ### Claim theorems: the mask evaluator -/

/-- C1: Mask evaluator all-or-nothing rule — a hex is drawn iff every one of
its six computed vertices passes, where a vertex is rejected exactly when it
lies inside at least one exclude polygon and inside no include polygon; the
renderer `overlayHexGrid` (its records' `drawn` flags) and the labeler
`annotateHexCoords` (its emitted labels) both apply this per-vertex rule. -/
theorem mask_all_or_nothing (α : Type) [LinearOrderedField α] :
    (∀ (points : List (Point α)) (skip incl : List (List (Point α))),
        shouldDrawHex points skip incl = true ↔
          ∀ pt ∈ points, vertexPasses pt skip incl) ∧
      (∀ (fuel : ℕ) (w h ppm miles : ℝ) (skip incl : List (List (Point ℝ))),
        ((overlayHexGrid fuel w h ppm miles skip incl).1.all fun hex =>
            hex.drawn == shouldDrawHex hex.points skip incl) = true) ∧
      (∀ (g : HexGrid) (ppm miles : ℝ) (skip incl : List (List (Point ℝ))),
        annotateHexCoords g ppm miles skip incl =
          (g.hexes.filter fun hx =>
              shouldDrawHex (annotatePoints ppm miles hx) skip incl).map
            (labelOf ppm miles (g.rowCount / 2) (g.colCount / 2))) := by
  refine ⟨fun points skip incl => shouldDrawHex_iff points skip incl,
    fun fuel w h ppm miles skip incl => ?_,
    fun g ppm miles skip incl =>
      annotateHexCoords_eq_filter g ppm miles skip incl⟩
  rw [List.all_eq_true]
  intro hex hmem
  rw [beq_iff_eq]
  exact overlayRows_drawn w h (overlaySpacing ppm miles) skip incl fuel
    (-(overlaySpacing ppm miles).vSpacing / 2) 0 hex hmem

/-- The square polygon of the specification's containment test. -/
def squarePoly : List (Point ℚ) := [⟨0, 0⟩, ⟨10, 0⟩, ⟨10, 10⟩, ⟨0, 10⟩]

/-- `(5,5)` lies inside the `10 × 10` square. -/
theorem pip_square_inside :
    pointInPolygon (⟨5, 5⟩ : Point ℚ) squarePoly = true := by
  show List.foldl _ false (List.range 4) = true
  have hr : List.range 4 = [0, 1, 2, 3] := rfl
  rw [hr]
  simp only [List.foldl_cons, List.foldl_nil]
  norm_num [pipStep, pipCross, squarePoly]

/-- `(15,5)` lies outside the `10 × 10` square. -/
theorem pip_square_outside :
    pointInPolygon (⟨15, 5⟩ : Point ℚ) squarePoly = false := by
  show List.foldl _ false (List.range 4) = false
  have hr : List.range 4 = [0, 1, 2, 3] := rfl
  rw [hr]
  simp only [List.foldl_cons, List.foldl_nil]
  norm_num [pipStep, pipCross, squarePoly]

/-- C2: `pointInPolygon` implements the even-odd ray-casting rule: a point
is reported inside iff the number of edges `(vs[j], vs[i])` — with `j` the
wrapping predecessor of `i` — that straddle the point's height with
x-intercept strictly to the right of the point is odd; for the square
`[(0,0),(10,0),(10,10),(0,10)]` the point `(5,5)` is inside and `(15,5)` is
outside. -/
theorem pointInPolygon_even_odd_rule (α : Type) [LinearOrderedField α] :
    (∀ (p : Point α) (vs : List (Point α)),
        pointInPolygon p vs = true ↔ crossingCount p vs % 2 = 1) ∧
      pointInPolygon (⟨5, 5⟩ : Point ℚ) squarePoly = true ∧
      pointInPolygon (⟨15, 5⟩ : Point ℚ) squarePoly = false := by
  refine ⟨fun p vs => ?_, pip_square_inside, pip_square_outside⟩
  rw [pointInPolygon_eq_parity]
  simp

/-- C6: Degenerate polygons are no-ops — a polygon with fewer than three
vertices contains no point, so adding it to either the exclude or the
include set leaves every mask decision unchanged. -/
theorem degenerate_polygons_are_noops (α : Type) [LinearOrderedField α]
    (p : Point α) (vs : List (Point α)) (h : vs.length < 3) :
    pointInPolygon p vs = false ∧
      ∀ (points : List (Point α)) (skip incl : List (List (Point α))),
        shouldDrawHex points (skip ++ [vs]) incl =
            shouldDrawHex points skip incl ∧
          shouldDrawHex points skip (incl ++ [vs]) =
            shouldDrawHex points skip incl :=
  ⟨pointInPolygon_degenerate p vs h, fun points skip incl =>
    shouldDrawHex_append_degenerate points skip incl vs h⟩

theorem degenerate_polygons_are_noops_witness :
    ([(⟨0, 0⟩ : Point ℚ), ⟨2, 2⟩].length < 3) ∧
      pointInPolygon (⟨1, 1⟩ : Point ℚ) [⟨0, 0⟩, ⟨2, 2⟩] = false :=
  ⟨by norm_num,
    (degenerate_polygons_are_noops ℚ ⟨1, 1⟩ [⟨0, 0⟩, ⟨2, 2⟩] (by norm_num)).1⟩

/-- C10: Include-set monotonicity of the mask decision — with the candidate
vertices and the exclude set fixed, a hex drawn with include set `incl`
stays drawn with any superset `incl'`; symmetrically, removing exclude
polygons never causes a drawn hex to be skipped. -/
theorem mask_monotone_in_polygon_sets (α : Type) [LinearOrderedField α]
    (points : List (Point α)) (skip skip' incl incl' : List (List (Point α)))
    (hincl : ∀ P ∈ incl, P ∈ incl') (hskip : ∀ P ∈ skip', P ∈ skip)
    (h : shouldDrawHex points skip incl = true) :
    shouldDrawHex points skip incl' = true ∧
      shouldDrawHex points skip' incl = true :=
  shouldDrawHex_mono points skip skip' incl incl' hskip hincl h

theorem mask_monotone_in_polygon_sets_witness :
    shouldDrawHex [(⟨5, 5⟩ : Point ℚ)] [squarePoly] [squarePoly] = true ∧
      (shouldDrawHex [(⟨5, 5⟩ : Point ℚ)] [squarePoly]
          [squarePoly, squarePoly] = true ∧
        shouldDrawHex [(⟨5, 5⟩ : Point ℚ)] [] [squarePoly] = true) := by
  have hdraw :
      shouldDrawHex [(⟨5, 5⟩ : Point ℚ)] [squarePoly] [squarePoly] = true := by
    simp [shouldDrawHex, pip_square_inside]
  exact ⟨hdraw, mask_monotone_in_polygon_sets ℚ _ _ _ _ _
    (by simp) (by simp) hdraw⟩

/-! ### Claim theorems: spacing and vertex geometry -/

/-- C3: Lattice-spacing derivation.  In the renderer's path all five
equations of the specification hold, with `hexRadius = ppm·miles/2`.  The
labeler's path `computeHexGrid` violates the claim: it sets
`hexRadius = ppm·miles` without the halving, e.g. `6` instead of `3` at
`ppm = 2, miles = 3`, even though its own comment says its loops are
identical to `overlayHexGrid`'s. -/
theorem spacing_derivation (ppm miles : ℝ) :
    ((overlaySpacing ppm miles).hexRadius = ppm * miles / 2 ∧
      (overlaySpacing ppm miles).hexWidth =
        2 * (overlaySpacing ppm miles).hexRadius ∧
      (overlaySpacing ppm miles).hexHeight =
        Real.sqrt 3 * (overlaySpacing ppm miles).hexRadius ∧
      (overlaySpacing ppm miles).hSpacing =
        0.75 * (overlaySpacing ppm miles).hexWidth ∧
      (overlaySpacing ppm miles).vSpacing =
        (overlaySpacing ppm miles).hexHeight) ∧
      (computeGridSpacing 2 3).hexRadius = 6 ∧ (2 : ℝ) * 3 / 2 = 3 ∧
      (6 : ℝ) ≠ 3 := by
  refine ⟨⟨rfl, rfl, rfl, rfl, rfl⟩, ?_, by norm_num, by norm_num⟩
  show (2 : ℝ) * 3 = 6
  norm_num

/-- C8: Hex vertex computation and symmetry — vertex `i` is
`(cx + r·cos(i·60°), cy + r·sin(i·60°))` (the code's `i·60·π/180` equals
`i·π/3`), every vertex lies at distance exactly `r` from the center, and
vertex `i+1` is vertex `i` rotated by exactly `60°` about the center. -/
theorem hex_vertex_computation (cx cy r : ℝ) (hr : 0 ≤ r) (i : ℕ) :
    hexVertex cx cy r i =
        ⟨cx + r * Real.cos (i * (Real.pi / 3)),
          cy + r * Real.sin (i * (Real.pi / 3))⟩ ∧
      Real.sqrt (((hexVertex cx cy r i).x - cx) ^ 2 +
          ((hexVertex cx cy r i).y - cy) ^ 2) = r ∧
      (hexVertex cx cy r (i + 1)).x - cx =
          ((hexVertex cx cy r i).x - cx) * Real.cos (Real.pi / 3) -
            ((hexVertex cx cy r i).y - cy) * Real.sin (Real.pi / 3) ∧
      (hexVertex cx cy r (i + 1)).y - cy =
          ((hexVertex cx cy r i).x - cx) * Real.sin (Real.pi / 3) +
            ((hexVertex cx cy r i).y - cy) * Real.cos (Real.pi / 3) := by
  have hθ : (i : ℝ) * 60 * (Real.pi / 180) = i * (Real.pi / 3) := by ring
  have hθ1 : ((i + 1 : ℕ) : ℝ) * 60 * (Real.pi / 180) =
      i * (Real.pi / 3) + Real.pi / 3 := by
    push_cast
    ring
  refine ⟨?_, ?_, ?_, ?_⟩
  · unfold hexVertex
    rw [hθ]
  · have key : (cx + r * Real.cos ((i : ℝ) * 60 * (Real.pi / 180)) - cx) ^ 2 +
        (cy + r * Real.sin ((i : ℝ) * 60 * (Real.pi / 180)) - cy) ^ 2 =
          r ^ 2 := by
      calc (cx + r * Real.cos ((i : ℝ) * 60 * (Real.pi / 180)) - cx) ^ 2 +
            (cy + r * Real.sin ((i : ℝ) * 60 * (Real.pi / 180)) - cy) ^ 2
          = r ^ 2 * (Real.sin ((i : ℝ) * 60 * (Real.pi / 180)) ^ 2 +
              Real.cos ((i : ℝ) * 60 * (Real.pi / 180)) ^ 2) := by ring
        _ = r ^ 2 := by rw [Real.sin_sq_add_cos_sq, mul_one]
    show Real.sqrt
        ((cx + r * Real.cos ((i : ℝ) * 60 * (Real.pi / 180)) - cx) ^ 2 +
          (cy + r * Real.sin ((i : ℝ) * 60 * (Real.pi / 180)) - cy) ^ 2) = r
    rw [key]
    exact Real.sqrt_sq hr
  · show cx + r * Real.cos (((i + 1 : ℕ) : ℝ) * 60 * (Real.pi / 180)) - cx =
        (cx + r * Real.cos ((i : ℝ) * 60 * (Real.pi / 180)) - cx) *
            Real.cos (Real.pi / 3) -
          (cy + r * Real.sin ((i : ℝ) * 60 * (Real.pi / 180)) - cy) *
            Real.sin (Real.pi / 3)
    rw [hθ1, hθ, Real.cos_add]
    ring
  · show cy + r * Real.sin (((i + 1 : ℕ) : ℝ) * 60 * (Real.pi / 180)) - cy =
        (cx + r * Real.cos ((i : ℝ) * 60 * (Real.pi / 180)) - cx) *
            Real.sin (Real.pi / 3) +
          (cy + r * Real.sin ((i : ℝ) * 60 * (Real.pi / 180)) - cy) *
            Real.cos (Real.pi / 3)
    rw [hθ1, hθ, Real.sin_add]
    ring

theorem hex_vertex_computation_witness :
    (0 : ℝ) ≤ 1 ∧
      Real.sqrt (((hexVertex 0 0 1 0).x - 0) ^ 2 +
          ((hexVertex 0 0 1 0).y - 0) ^ 2) = 1 :=
  ⟨by norm_num, (hex_vertex_computation 0 0 1 (by norm_num) 0).2.1⟩

/-! ### Claim theorems: degenerate scale parameters (C4) -/

/-- With `hSpacing = 0`, the inner loop's position never advances, so the
guard keeps holding and the loop never finishes, whatever the fuel. -/
theorem overlayCols_stuck (w r hh hs : ℝ) (skip incl : List (List (Point ℝ)))
    (yBase : ℝ) (row : ℕ) (hhs : hs = 0) :
    ∀ (fuel : ℕ) (x : ℝ) (counter : ℕ), x < w + hs * 2 →
      (overlayCols w r hh hs skip incl yBase row fuel x counter).2 = false := by
  intro fuel
  induction fuel with
  | zero => intro x counter _; rfl
  | succ fuel ih =>
    intro x counter hx
    rw [overlayCols, if_pos hx]
    exact ih (x + hs) (counter + 1) (by rw [hhs] at hx ⊢; simpa using hx)

/-- With `hSpacing = 0` (and a positive inner bound), the row loop can never
finish: its very first row's inner loop never does. -/
theorem overlayRows_stuck (w h : ℝ) (sp : Spacing)
    (skip incl : List (List (Point ℝ))) (hhs : sp.hSpacing = 0)
    (hw : (0 : ℝ) < w + sp.hSpacing * 2) :
    ∀ (fuel : ℕ) (y : ℝ) (row : ℕ), y < h + sp.vSpacing →
      (overlayRows w h sp skip incl fuel y row).2 = false := by
  intro fuel y row hy
  cases fuel with
  | zero => rfl
  | succ fuel =>
    rw [overlayRows, if_pos hy]
    have hinner := overlayCols_stuck w sp.hexRadius sp.hexHeight sp.hSpacing
      skip incl (y + if row % 2 == 0 then 0 else sp.vSpacing / 2) row hhs
      fuel 0 0 hw
    show ((overlayCols w sp.hexRadius sp.hexHeight sp.hSpacing skip incl
        (y + if row % 2 == 0 then 0 else sp.vSpacing / 2) row fuel 0 0).2 &&
      (overlayRows w h sp skip incl fuel (y + sp.vSpacing / 2) (row + 1)).2) =
        false
    rw [hinner, Bool.false_and]

/-- C4: the code contains no rejection of invalid scale parameters.  At
`pixelsPerMile = 0, hexMiles = 1` on a `100 × 100` image all spacing values
are `0`, the loop variables never advance, and the enumeration loop of
`overlayHexGrid` never reaches its exit condition: for every iteration
budget the run remains unfinished (the JavaScript loop hangs), instead of
an `InvalidParameter` condition being signalled before the loops. -/
theorem invalid_params_never_rejected (fuel : ℕ)
    (skip incl : List (List (Point ℝ))) :
    (overlayHexGrid fuel 100 100 0 1 skip incl).2 = false := by
  show (overlayRows 100 100 (overlaySpacing 0 1) skip incl fuel
    (-(overlaySpacing 0 1).vSpacing / 2) 0).2 = false
  have hhs : (overlaySpacing 0 1).hSpacing = 0 := by
    show (0.75 : ℝ) * (2 * (0 * 1 / 2)) = 0
    norm_num
  have hv : (overlaySpacing 0 1).vSpacing = 0 := by
    show Real.sqrt 3 * ((0 : ℝ) * 1 / 2) = 0
    norm_num
  apply overlayRows_stuck
  · exact hhs
  · rw [hhs]; norm_num
  · rw [hv]; norm_num

/-! ### Run lemmas: where the guards fail, the loops finish -/

/-- If the inner guard first fails at step `K` (with fuel beyond `K`), the
inner loop finishes and emits exactly `K` hexes. -/
theorem overlayCols_run (w rad hh hs : ℝ) (skip incl : List (List (Point ℝ)))
    (yBase : ℝ) (row : ℕ) :
    ∀ (K fuel : ℕ) (x : ℝ) (counter : ℕ), K < fuel →
      (∀ j : ℕ, j < K → x + j * hs < w + hs * 2) →
      ¬(x + K * hs < w + hs * 2) →
      (overlayCols w rad hh hs skip incl yBase row fuel x counter).2 = true ∧
        (overlayCols w rad hh hs skip incl yBase row fuel x
          counter).1.length = K := by
  intro K
  induction K with
  | zero =>
    intro fuel x counter hK hall hfail
    cases fuel with
    | zero => exact absurd hK (Nat.not_lt_zero _)
    | succ fuel =>
      have hfail0 : ¬(x < w + hs * 2) := by
        intro hcon
        apply hfail
        push_cast
        simpa using hcon
      rw [overlayCols, if_neg hfail0]
      exact ⟨rfl, rfl⟩
  | succ K ih =>
    intro fuel x counter hK hall hfail
    cases fuel with
    | zero => exact absurd hK (Nat.not_lt_zero _)
    | succ fuel =>
      have hg : x < w + hs * 2 := by
        have h0 := hall 0 (Nat.succ_pos K)
        push_cast at h0
        simpa using h0
      rw [overlayCols, if_pos hg]
      have hrec := ih fuel (x + hs) (counter + 1) (by omega)
        (fun j hj => by
          have hj1 := hall (j + 1) (by omega)
          push_cast at hj1 ⊢
          linarith)
        (by
          intro hcon
          apply hfail
          push_cast at hcon ⊢
          linarith)
      refine ⟨hrec.1, ?_⟩
      show (overlayHexAt rad hh skip incl yBase row x (counter + 1) ::
        (overlayCols w rad hh hs skip incl yBase row fuel (x + hs)
          (counter + 1)).1).length = K + 1
      rw [List.length_cons, hrec.2]

/-- If every row's inner loop finishes with `K` hexes and the outer guard
first fails at step `N` (with fuel beyond `N + K`), the row loop finishes
and emits exactly `N·K` hexes. -/
theorem overlayRows_run (w h : ℝ) (sp : Spacing)
    (skip incl : List (List (Point ℝ))) (K : ℕ)
    (hinner : ∀ (fuel : ℕ) (yBase : ℝ) (row : ℕ), K < fuel →
      (overlayCols w sp.hexRadius sp.hexHeight sp.hSpacing skip incl yBase
          row fuel 0 0).2 = true ∧
        (overlayCols w sp.hexRadius sp.hexHeight sp.hSpacing skip incl yBase
          row fuel 0 0).1.length = K) :
    ∀ (N fuel : ℕ) (y : ℝ) (row : ℕ), N + K < fuel →
      (∀ j : ℕ, j < N → y + j * (sp.vSpacing / 2) < h + sp.vSpacing) →
      ¬(y + N * (sp.vSpacing / 2) < h + sp.vSpacing) →
      (overlayRows w h sp skip incl fuel y row).2 = true ∧
        (overlayRows w h sp skip incl fuel y row).1.length = N * K := by
  intro N
  induction N with
  | zero =>
    intro fuel y row hK hall hfail
    cases fuel with
    | zero => exact absurd hK (Nat.not_lt_zero _)
    | succ fuel =>
      have hfail0 : ¬(y < h + sp.vSpacing) := by
        intro hcon
        apply hfail
        push_cast
        simpa using hcon
      rw [overlayRows, if_neg hfail0]
      exact ⟨rfl, by simp⟩
  | succ N ih =>
    intro fuel y row hK hall hfail
    cases fuel with
    | zero => exact absurd hK (Nat.not_lt_zero _)
    | succ fuel =>
      have hg : y < h + sp.vSpacing := by
        have h0 := hall 0 (Nat.succ_pos N)
        push_cast at h0
        simpa using h0
      rw [overlayRows, if_pos hg]
      have hin := hinner fuel
        (y + if row % 2 == 0 then 0 else sp.vSpacing / 2) row (by omega)
      have hrec := ih fuel (y + sp.vSpacing / 2) (row + 1) (by omega)
        (fun j hj => by
          have hj1 := hall (j + 1) (by omega)
          push_cast at hj1 ⊢
          linarith)
        (by
          intro hcon
          apply hfail
          push_cast at hcon ⊢
          linarith)
      constructor
      · show ((overlayCols w sp.hexRadius sp.hexHeight sp.hSpacing skip incl
            (y + if row % 2 == 0 then 0 else sp.vSpacing / 2) row fuel
            0 0).2 &&
          (overlayRows w h sp skip incl fuel (y + sp.vSpacing / 2)
            (row + 1)).2) = true
        rw [hin.1, hrec.1]
        rfl
      · show ((overlayCols w sp.hexRadius sp.hexHeight sp.hSpacing skip incl
            (y + if row % 2 == 0 then 0 else sp.vSpacing / 2) row fuel
            0 0).1 ++
          (overlayRows w h sp skip incl fuel (y + sp.vSpacing / 2)
            (row + 1)).1).length = (N + 1) * K
        rw [List.length_append, hin.2, hrec.2]
        ring

/-- For a `0 × 0` image and any positive scale parameters the renderer's
enumeration finishes within fuel 12 and produces exactly `3·2 = 6` margin
hexes. -/
theorem overlay_empty_image_run (ppm miles : ℝ)
    (skip incl : List (List (Point ℝ))) (hp : 0 < ppm) (hm : 0 < miles) :
    (overlayHexGrid 12 0 0 ppm miles skip incl).2 = true ∧
      (overlayHexGrid 12 0 0 ppm miles skip incl).1.length = 6 := by
  have hhs : (overlaySpacing ppm miles).hSpacing =
      0.75 * (2 * (ppm * miles / 2)) := rfl
  have hvs : (overlaySpacing ppm miles).vSpacing =
      Real.sqrt 3 * (ppm * miles / 2) := rfl
  have hhspos : (0 : ℝ) < (overlaySpacing ppm miles).hSpacing := by
    rw [hhs]
    have h3 : (0 : ℝ) < Real.sqrt 3 := Real.sqrt_pos.mpr (by norm_num)
    positivity
  have hvpos : (0 : ℝ) < (overlaySpacing ppm miles).vSpacing := by
    rw [hvs]
    have h3 : (0 : ℝ) < Real.sqrt 3 := Real.sqrt_pos.mpr (by norm_num)
    positivity
  have hinner : ∀ (fuel : ℕ) (yBase : ℝ) (row : ℕ), 2 < fuel →
      (overlayCols 0 (overlaySpacing ppm miles).hexRadius
          (overlaySpacing ppm miles).hexHeight
          (overlaySpacing ppm miles).hSpacing skip incl yBase row fuel
          0 0).2 = true ∧
        (overlayCols 0 (overlaySpacing ppm miles).hexRadius
          (overlaySpacing ppm miles).hexHeight
          (overlaySpacing ppm miles).hSpacing skip incl yBase row fuel
          0 0).1.length = 2 := by
    intro fuel yBase row hfuel
    apply overlayCols_run 0 (overlaySpacing ppm miles).hexRadius
      (overlaySpacing ppm miles).hexHeight
      (overlaySpacing ppm miles).hSpacing skip incl yBase row 2 fuel 0 0 hfuel
    · intro j hj
      have hj2 : (j : ℝ) ≤ 1 := by exact_mod_cast Nat.lt_succ_iff.mp hj
      nlinarith [hhspos]
    · intro hcon
      push_cast at hcon
      nlinarith [hhspos]
  have hmain := overlayRows_run 0 0 (overlaySpacing ppm miles) skip incl 2
    hinner 3 12 (-(overlaySpacing ppm miles).vSpacing / 2) 0 (by norm_num)
    (fun j hj => by
      have hj2 : (j : ℝ) ≤ 2 := by exact_mod_cast Nat.lt_succ_iff.mp hj
      nlinarith [hvpos])
    (by
      intro hcon
      push_cast at hcon
      nlinarith [hvpos])
  refine ⟨hmain.1, ?_⟩
  show (overlayRows 0 0 (overlaySpacing ppm miles) skip incl 12
    (-(overlaySpacing ppm miles).vSpacing / 2) 0).1.length = 6
  rw [hmain.2]

/-- C5 counterexample: at `width = height = 0` with valid scale parameters
`pixelsPerMile = 2, hexMiles = 1`, the enumeration finishes and yields 6
hexes — not an empty hex set. -/
theorem empty_image_counterexample :
    (overlayHexGrid 12 0 0 2 1 [] []).2 = true ∧
      (overlayHexGrid 12 0 0 2 1 [] []).1.length = 6 ∧
      (overlayHexGrid 12 0 0 2 1 [] []).1 ≠ [] := by
  have h := overlay_empty_image_run 2 1 [] [] (by norm_num) (by norm_num)
  refine ⟨h.1, h.2, ?_⟩
  intro hnil
  rw [hnil] at h
  simp at h

/-- C5 (amended): for `width = height = 0` with valid scale parameters the
enumeration terminates without error, but produces the fixed margin set of
6 hexes (3 border rows × 2 border columns) rather than an empty hex set. -/
theorem empty_image_margin_hexes (ppm miles : ℝ)
    (skip incl : List (List (Point ℝ))) (hp : 0 < ppm) (hm : 0 < miles) :
    (overlayHexGrid 12 0 0 ppm miles skip incl).2 = true ∧
      (overlayHexGrid 12 0 0 ppm miles skip incl).1.length = 6 :=
  overlay_empty_image_run ppm miles skip incl hp hm

theorem empty_image_margin_hexes_witness :
    (0 : ℝ) < 3 ∧ (0 : ℝ) < 2 ∧
      ((overlayHexGrid 12 0 0 3 2 [] []).2 = true ∧
        (overlayHexGrid 12 0 0 3 2 [] []).1.length = 6) :=
  ⟨by norm_num, by norm_num,
    empty_image_margin_hexes 3 2 [] [] (by norm_num) (by norm_num)⟩

/-! ### The labeler's grid: row/column count analysis (C7) -/

theorem init_le_foldl_max : ∀ (l : List ℕ) (a : ℕ), a ≤ l.foldl max a := by
  intro l
  induction l with
  | nil => intro a; exact le_refl a
  | cons z t ih =>
    intro a
    rw [List.foldl_cons]
    exact le_trans (le_max_left a z) (ih (max a z))

theorem le_foldl_max : ∀ (l : List ℕ) (a x : ℕ), x ∈ l → x ≤ l.foldl max a := by
  intro l
  induction l with
  | nil => intro a x hx; exact absurd hx (List.not_mem_nil x)
  | cons z t ih =>
    intro a x hx
    rw [List.foldl_cons]
    rcases List.mem_cons.mp hx with h | h
    · subst h
      exact le_trans (le_max_right a x) (init_le_foldl_max t (max a x))
    · exact ih (max a z) x h

theorem foldl_max_le : ∀ (l : List ℕ) (a b : ℕ), a ≤ b → (∀ x ∈ l, x ≤ b) →
    l.foldl max a ≤ b := by
  intro l
  induction l with
  | nil => intro a b hab _; simpa using hab
  | cons z t ih =>
    intro a b hab hall
    rw [List.foldl_cons]
    exact ih (max a z) b (max_le hab (hall z (List.mem_cons_self z t)))
      fun x hx => hall x (List.mem_cons_of_mem z hx)

/-- Every cell emitted by the labeler's inner loop belongs to the row being
enumerated. -/
theorem computeCols_row (w hs : ℝ) (row : ℕ) (y : ℝ) :
    ∀ (fuel : ℕ) (x : ℝ) (col : ℕ) (hex : GHex),
      hex ∈ (computeCols w hs row y fuel x col).1 → hex.row = row := by
  intro fuel
  induction fuel with
  | zero => intro x col hex hmem; simp [computeCols] at hmem
  | succ fuel ih =>
    intro x col hex hmem
    rw [computeCols] at hmem
    by_cases hg : x < w + hs
    · rw [if_pos hg] at hmem
      rcases List.mem_cons.mp hmem with heq | htail
      · subst heq; rfl
      · exact ih (x + hs) (col + 1) hex htail
    · rw [if_neg hg] at hmem
      simp at hmem

/-- A finished inner loop whose guard holds at the start emits at least one
cell. -/
theorem computeCols_ne_nil (w hs : ℝ) (row : ℕ) (y : ℝ)
    (fuel : ℕ) (x : ℝ) (col : ℕ)
    (hfin : (computeCols w hs row y fuel x col).2 = true)
    (hg : x < w + hs) : (computeCols w hs row y fuel x col).1 ≠ [] := by
  cases fuel with
  | zero => exact absurd hfin (by simp [computeCols])
  | succ fuel =>
    rw [computeCols, if_pos hg]
    simp

/-- Row-index bookkeeping of a finished run of the labeler's outer loop:
the returned counter bounds every emitted row index strictly from above,
every index from the starting row up to the counter is attained, and the
counter strictly exceeds the start whenever the first guard holds. -/
theorem computeRows_spec (w h : ℝ) (sp : Spacing) (hw : 0 ≤ w)
    (hhs : 0 < sp.hSpacing) :
    ∀ (fuel : ℕ) (y : ℝ) (row0 : ℕ),
      (computeRows w h sp fuel y row0).2.2 = true →
      row0 ≤ (computeRows w h sp fuel y row0).2.1 ∧
        (y < h + sp.vSpacing → row0 < (computeRows w h sp fuel y row0).2.1) ∧
        (∀ hex ∈ (computeRows w h sp fuel y row0).1,
          row0 ≤ hex.row ∧ hex.row < (computeRows w h sp fuel y row0).2.1) ∧
        (∀ ρ : ℕ, row0 ≤ ρ → ρ < (computeRows w h sp fuel y row0).2.1 →
          ∃ hex ∈ (computeRows w h sp fuel y row0).1, hex.row = ρ) := by
  intro fuel
  induction fuel with
  | zero =>
    intro y row0 hfin
    exact absurd hfin (by simp [computeRows])
  | succ fuel ih =>
    intro y row0 hfin
    by_cases hg : y < h + sp.vSpacing
    · have hR : (computeRows w h sp (fuel + 1) y row0).2.1 =
          (computeRows w h sp fuel (y + sp.vSpacing / 4) (row0 + 1)).2.1 := by
        rw [computeRows, if_pos hg]
      have hL : (computeRows w h sp (fuel + 1) y row0).1 =
          (computeCols w sp.hSpacing row0 y fuel
            (if row0 % 2 == 1 then sp.hSpacing / 2 else 0) 0).1 ++
          (computeRows w h sp fuel (y + sp.vSpacing / 4) (row0 + 1)).1 := by
        rw [computeRows, if_pos hg]
      have hF : (computeRows w h sp (fuel + 1) y row0).2.2 =
          ((computeCols w sp.hSpacing row0 y fuel
            (if row0 % 2 == 1 then sp.hSpacing / 2 else 0) 0).2 &&
          (computeRows w h sp fuel (y + sp.vSpacing / 4) (row0 + 1)).2.2) := by
        rw [computeRows, if_pos hg]
      rw [hF] at hfin
      rw [Bool.and_eq_true] at hfin
      obtain ⟨ihr1, ihr2, ihr3, ihr4⟩ :=
        ih (y + sp.vSpacing / 4) (row0 + 1) hfin.2
      have hxoff : (if row0 % 2 == 1 then sp.hSpacing / 2 else 0) <
          w + sp.hSpacing := by
        by_cases hpar : (row0 % 2 == 1) = true
        · rw [if_pos hpar]; linarith
        · rw [if_neg hpar]; linarith
      rw [hR, hL]
      refine ⟨by omega, fun _ => by omega, ?_, ?_⟩
      · intro hex hmem
        rcases List.mem_append.mp hmem with hin | hrest
        · have hrow := computeCols_row w sp.hSpacing row0 y fuel _ 0 hex hin
          constructor
          · omega
          · have := ihr1
            omega
        · have := ihr3 hex hrest
          omega
      · intro ρ hlo hhi
        by_cases hρ : ρ = row0
        · subst hρ
          have hne := computeCols_ne_nil w sp.hSpacing ρ y fuel
            (if ρ % 2 == 1 then sp.hSpacing / 2 else 0) 0 hfin.1 hxoff
          obtain ⟨hex, hmem⟩ := List.exists_mem_of_ne_nil _ hne
          exact ⟨hex, List.mem_append_left _ hmem,
            computeCols_row w sp.hSpacing ρ y fuel _ 0 hex hmem⟩
        · obtain ⟨hex, hmem, heq⟩ := ihr4 ρ (by omega) (by omega)
          exact ⟨hex, List.mem_append_right _ hmem, heq⟩
    · have hR : (computeRows w h sp (fuel + 1) y row0).2.1 = row0 := by
        rw [computeRows, if_neg hg]
      have hL : (computeRows w h sp (fuel + 1) y row0).1 = [] := by
        rw [computeRows, if_neg hg]
      rw [hR, hL]
      refine ⟨le_refl _, fun hcon => absurd hcon hg, ?_, ?_⟩
      · intro hex hmem
        simp at hmem
      · intro ρ hlo hhi
        omega

/-- For every finished run of `computeHexGrid` on a nonnegative-size image
with positive scale parameters, the returned `rowCount` is the maximum
emitted row index plus one (and `colCount` is by construction the maximum
emitted column index). -/
theorem computeHexGrid_counts (fuel : ℕ) (w h ppm miles : ℝ)
    (hfin : (computeHexGrid fuel w h ppm miles).2 = true)
    (hw : 0 ≤ w) (hh : 0 ≤ h) (hp : 0 < ppm) (hm : 0 < miles) :
    (computeHexGrid fuel w h ppm miles).1.rowCount =
      ((computeHexGrid fuel w h ppm miles).1.hexes.map GHex.row).foldl
        max 0 + 1 ∧
      (computeHexGrid fuel w h ppm miles).1.colCount =
        ((computeHexGrid fuel w h ppm miles).1.hexes.map GHex.col).foldl
          max 0 := by
  have hhs : (0 : ℝ) < (computeGridSpacing ppm miles).hSpacing := by
    show (0 : ℝ) < 0.75 * (2 * (ppm * miles))
    positivity
  have hv : (0 : ℝ) < (computeGridSpacing ppm miles).vSpacing := by
    show (0 : ℝ) < Real.sqrt 3 * (ppm * miles)
    have h3 : (0 : ℝ) < Real.sqrt 3 := Real.sqrt_pos.mpr (by norm_num)
    positivity
  have hfin2 : (computeRows w h (computeGridSpacing ppm miles) fuel
      (-(computeGridSpacing ppm miles).vSpacing / 4) 0).2.2 = true := hfin
  obtain ⟨hs1, hs2, hs3, hs4⟩ := computeRows_spec w h
    (computeGridSpacing ppm miles) hw hhs fuel
    (-(computeGridSpacing ppm miles).vSpacing / 4) 0 hfin2
  have hstart : -(computeGridSpacing ppm miles).vSpacing / 4 <
      h + (computeGridSpacing ppm miles).vSpacing := by
    nlinarith
  have hRpos : 0 < (computeRows w h (computeGridSpacing ppm miles) fuel
      (-(computeGridSpacing ppm miles).vSpacing / 4) 0).2.1 := hs2 hstart
  refine ⟨?_, rfl⟩
  show (computeRows w h (computeGridSpacing ppm miles) fuel
      (-(computeGridSpacing ppm miles).vSpacing / 4) 0).2.1 =
    ((computeRows w h (computeGridSpacing ppm miles) fuel
      (-(computeGridSpacing ppm miles).vSpacing / 4) 0).1.map
        GHex.row).foldl max 0 + 1
  have hub : ((computeRows w h (computeGridSpacing ppm miles) fuel
      (-(computeGridSpacing ppm miles).vSpacing / 4) 0).1.map
        GHex.row).foldl max 0 ≤
      (computeRows w h (computeGridSpacing ppm miles) fuel
        (-(computeGridSpacing ppm miles).vSpacing / 4) 0).2.1 - 1 := by
    apply foldl_max_le
    · omega
    · intro a ha
      rcases List.mem_map.mp ha with ⟨hex, hmem, heq⟩
      have := hs3 hex hmem
      omega
  have hlb : (computeRows w h (computeGridSpacing ppm miles) fuel
      (-(computeGridSpacing ppm miles).vSpacing / 4) 0).2.1 - 1 ≤
      ((computeRows w h (computeGridSpacing ppm miles) fuel
        (-(computeGridSpacing ppm miles).vSpacing / 4) 0).1.map
          GHex.row).foldl max 0 := by
    obtain ⟨hex, hmem, heq⟩ := hs4
      ((computeRows w h (computeGridSpacing ppm miles) fuel
        (-(computeGridSpacing ppm miles).vSpacing / 4) 0).2.1 - 1)
      (by omega) (by omega)
    exact le_foldl_max _ 0 _ (List.mem_map.mpr ⟨hex, hmem, by omega⟩)
  omega

/-- Every label the annotator emits carries `q = col − centerCol`,
`r = centerRow − row` and the text `"q,r"`. -/
theorem annotate_labels_formula (g : HexGrid) (ppm miles : ℝ)
    (skip incl : List (List (Point ℝ))) :
    ((annotateHexCoords g ppm miles skip incl).all fun e =>
      (e.q == (e.col : ℤ) - ((g.colCount / 2 : ℕ) : ℤ)) &&
        (e.r == ((g.rowCount / 2 : ℕ) : ℤ) - (e.row : ℤ)) &&
        (e.text == toString e.q ++ "," ++ toString e.r)) = true := by
  rw [annotateHexCoords_eq_filter, List.all_eq_true]
  intro e hmem
  rcases List.mem_map.mp hmem with ⟨hx, hhx, rfl⟩
  simp [labelOf]

/-- In a grid with `rowCount = colCount = 11`, a surviving hex at
`row = 5, col = 5` is labeled `"0,0"`. -/
theorem annotate_center_label (x y ppm miles : ℝ) :
    ((annotateHexCoords ⟨[⟨5, 5, x, y⟩], 11, 11⟩ ppm miles [] []).map
      LabelEntry.text) = ["0,0"] := by
  have hdraw : shouldDrawHex (annotatePoints ppm miles ⟨5, 5, x, y⟩) [] [] =
      true := by
    simp [shouldDrawHex]
  rw [annotateHexCoords_eq_filter]
  simp [hdraw, labelOf]
  rfl

/-- C7: Coordinate labeling — every emitted label is `"q,r"` with
`q = col − ⌊colCount/2⌋` and `r = ⌊rowCount/2⌋ − row`; for every finished
`computeHexGrid` run (nonnegative image, positive scale), `rowCount` is the
maximum row index plus one and `colCount` the maximum column index; and in
a grid with `rowCount = colCount = 11` the surviving hex at
`row = 5, col = 5` is labeled `"0,0"`. -/
theorem coordinate_labeling :
    (∀ (g : HexGrid) (ppm miles : ℝ) (skip incl : List (List (Point ℝ))),
      ((annotateHexCoords g ppm miles skip incl).all fun e =>
        (e.q == (e.col : ℤ) - ((g.colCount / 2 : ℕ) : ℤ)) &&
          (e.r == ((g.rowCount / 2 : ℕ) : ℤ) - (e.row : ℤ)) &&
          (e.text == toString e.q ++ "," ++ toString e.r)) = true) ∧
      (∀ (fuel : ℕ) (w h ppm miles : ℝ),
        (computeHexGrid fuel w h ppm miles).2 = true → 0 ≤ w → 0 ≤ h →
        0 < ppm → 0 < miles →
        (computeHexGrid fuel w h ppm miles).1.rowCount =
            ((computeHexGrid fuel w h ppm miles).1.hexes.map GHex.row).foldl
              max 0 + 1 ∧
          (computeHexGrid fuel w h ppm miles).1.colCount =
            ((computeHexGrid fuel w h ppm miles).1.hexes.map GHex.col).foldl
              max 0) ∧
      (∀ (x y ppm miles : ℝ),
        ((annotateHexCoords ⟨[⟨5, 5, x, y⟩], 11, 11⟩ ppm miles [] []).map
          LabelEntry.text) = ["0,0"]) :=
  ⟨annotate_labels_formula,
    fun fuel w h ppm miles hfin hw hh hp hm =>
      computeHexGrid_counts fuel w h ppm miles hfin hw hh hp hm,
    annotate_center_label⟩

/-- If the inner guard of the labeler's column loop first fails at step `K`
(with fuel beyond `K`), the inner loop finishes. -/
theorem computeCols_fin (w hs : ℝ) (row : ℕ) (y : ℝ) :
    ∀ (K fuel : ℕ) (x : ℝ) (col : ℕ), K < fuel →
      (∀ j : ℕ, j < K → x + j * hs < w + hs) →
      ¬(x + K * hs < w + hs) →
      (computeCols w hs row y fuel x col).2 = true := by
  intro K
  induction K with
  | zero =>
    intro fuel x col hK hall hfail
    cases fuel with
    | zero => exact absurd hK (Nat.not_lt_zero _)
    | succ fuel =>
      have hfail0 : ¬(x < w + hs) := by
        intro hcon
        apply hfail
        push_cast
        simpa using hcon
      rw [computeCols, if_neg hfail0]
  | succ K ih =>
    intro fuel x col hK hall hfail
    cases fuel with
    | zero => exact absurd hK (Nat.not_lt_zero _)
    | succ fuel =>
      have hg : x < w + hs := by
        have h0 := hall 0 (Nat.succ_pos K)
        push_cast at h0
        simpa using h0
      have heq : (computeCols w hs row y (fuel + 1) x col).2 =
          (computeCols w hs row y fuel (x + hs) (col + 1)).2 := by
        rw [computeCols, if_pos hg]
      rw [heq]
      exact ih fuel (x + hs) (col + 1) (by omega)
        (fun j hj => by
          have hj1 := hall (j + 1) (by omega)
          push_cast at hj1 ⊢
          linarith)
        (by
          intro hcon
          apply hfail
          push_cast at hcon ⊢
          linarith)

/-- If every row's inner loop finishes within fuel `F0` and the outer guard
first fails at step `N` (with fuel beyond `N + F0`), the labeler's row loop
finishes. -/
theorem computeRows_fin (w h : ℝ) (sp : Spacing) (F0 : ℕ)
    (hinner : ∀ (fuel : ℕ) (y1 : ℝ) (row : ℕ), F0 < fuel →
      (computeCols w sp.hSpacing row y1 fuel
        (if row % 2 == 1 then sp.hSpacing / 2 else 0) 0).2 = true) :
    ∀ (N fuel : ℕ) (y : ℝ) (row : ℕ), N + F0 < fuel →
      (∀ j : ℕ, j < N → y + j * (sp.vSpacing / 4) < h + sp.vSpacing) →
      ¬(y + N * (sp.vSpacing / 4) < h + sp.vSpacing) →
      (computeRows w h sp fuel y row).2.2 = true := by
  intro N
  induction N with
  | zero =>
    intro fuel y row hK hall hfail
    cases fuel with
    | zero => exact absurd hK (Nat.not_lt_zero _)
    | succ fuel =>
      have hfail0 : ¬(y < h + sp.vSpacing) := by
        intro hcon
        apply hfail
        push_cast
        simpa using hcon
      rw [computeRows, if_neg hfail0]
  | succ N ih =>
    intro fuel y row hK hall hfail
    cases fuel with
    | zero => exact absurd hK (Nat.not_lt_zero _)
    | succ fuel =>
      have hg : y < h + sp.vSpacing := by
        have h0 := hall 0 (Nat.succ_pos N)
        push_cast at h0
        simpa using h0
      have heq : (computeRows w h sp (fuel + 1) y row).2.2 =
          ((computeCols w sp.hSpacing row y fuel
            (if row % 2 == 1 then sp.hSpacing / 2 else 0) 0).2 &&
          (computeRows w h sp fuel (y + sp.vSpacing / 4) (row + 1)).2.2) := by
        rw [computeRows, if_pos hg]
      rw [heq, Bool.and_eq_true]
      refine ⟨hinner fuel y row (by omega), ?_⟩
      exact ih fuel (y + sp.vSpacing / 4) (row + 1) (by omega)
        (fun j hj => by
          have hj1 := hall (j + 1) (by omega)
          push_cast at hj1 ⊢
          linarith)
        (by
          intro hcon
          apply hfail
          push_cast at hcon ⊢
          linarith)

/-- `computeHexGrid` on a `0 × 0` image with positive scale parameters
finishes within fuel 10: each row emits one cell, and the row loop stops
after 5 half-pitch steps. -/
theorem computeHexGrid_small_run (ppm miles : ℝ)
    (hp : 0 < ppm) (hm : 0 < miles) :
    (computeHexGrid 10 0 0 ppm miles).2 = true := by
  have hhs : (0 : ℝ) < (computeGridSpacing ppm miles).hSpacing := by
    show (0 : ℝ) < 0.75 * (2 * (ppm * miles))
    positivity
  have hv : (0 : ℝ) < (computeGridSpacing ppm miles).vSpacing := by
    show (0 : ℝ) < Real.sqrt 3 * (ppm * miles)
    have h3 : (0 : ℝ) < Real.sqrt 3 := Real.sqrt_pos.mpr (by norm_num)
    positivity
  show (computeRows 0 0 (computeGridSpacing ppm miles) 10
    (-(computeGridSpacing ppm miles).vSpacing / 4) 0).2.2 = true
  apply computeRows_fin 0 0 (computeGridSpacing ppm miles) 1 ?hin 5 10
    (-(computeGridSpacing ppm miles).vSpacing / 4) 0 (by norm_num)
  · intro j hj
    have hj2 : (j : ℝ) ≤ 4 := by exact_mod_cast Nat.lt_succ_iff.mp hj
    nlinarith [hv]
  · intro hcon
    push_cast at hcon
    nlinarith [hv]
  case hin =>
    intro fuel y1 row hfuel
    have hxle : (if row % 2 == 1 then
        (computeGridSpacing ppm miles).hSpacing / 2 else 0) ≤
          (computeGridSpacing ppm miles).hSpacing / 2 := by
      by_cases hpar : (row % 2 == 1) = true
      · rw [if_pos hpar]
      · rw [if_neg hpar]; positivity
    have hx0 : (0 : ℝ) ≤ (if row % 2 == 1 then
        (computeGridSpacing ppm miles).hSpacing / 2 else 0) := by
      by_cases hpar : (row % 2 == 1) = true
      · rw [if_pos hpar]; positivity
      · rw [if_neg hpar]
    apply computeCols_fin 0 (computeGridSpacing ppm miles).hSpacing row y1 1
      fuel _ 0 hfuel
    · intro j hj
      have hj0 : j = 0 := by omega
      subst hj0
      push_cast
      nlinarith [hhs]
    · intro hcon
      push_cast at hcon
      nlinarith [hhs]

theorem coordinate_labeling_witness :
    (computeHexGrid 10 0 0 2 2).2 = true ∧ ((0 : ℝ) ≤ 0) ∧ ((0 : ℝ) < 2) ∧
      ((computeHexGrid 10 0 0 2 2).1.rowCount =
          ((computeHexGrid 10 0 0 2 2).1.hexes.map GHex.row).foldl max 0 + 1 ∧
        (computeHexGrid 10 0 0 2 2).1.colCount =
          ((computeHexGrid 10 0 0 2 2).1.hexes.map GHex.col).foldl max 0) := by
  have hfin := computeHexGrid_small_run 2 2 (by norm_num) (by norm_num)
  exact ⟨hfin, le_refl 0, by norm_num,
    coordinate_labeling.2.1 10 0 0 2 2 hfin (le_refl 0) (le_refl 0)
      (by norm_num) (by norm_num)⟩

/-! ### Grid coverage at default-like parameters (C9)

At `width = height = 100`, `pixelsPerMile = 10`, `hexMiles = 1` the renderer
uses `hexRadius = 5`, `hSpacing = 7.5` and `vSpacing = √3·5`.  The centers
enumerated with mismatched row/column parity form the triangular lattice
`(7.5·k, n·c)` with `c = √3·5/2`, and every point of `[0,100)²` lies within
distance 5 of one of them. -/

/-- The key geometric certificate: a point within the horizontal band of one
column (`a = |dx| ≤ 3.75`) and within one vertical pitch of its lattice
(`b = |dy| ≤ c`) that is farther than 5 from that column's nearest center is
within 5 of the diagonally adjacent center at `(7.5 - a, c - b)`. -/
theorem far_cell_bound (a b c : ℝ) (hc2 : c ^ 2 = 75 / 4)
    (ha0 : 0 ≤ a) (ha : a ≤ 3.75) (hb0 : 0 ≤ b) (hb : b ≤ c)
    (hfar : 25 ≤ a ^ 2 + b ^ 2) :
    (7.5 - a) ^ 2 + (c - b) ^ 2 ≤ 25 := by
  have ha25 : 2.5 ≤ a := by
    nlinarith [mul_nonneg (sub_nonneg.mpr hb) (by linarith : (0 : ℝ) ≤ c + b)]
  nlinarith [mul_nonneg (show (0 : ℝ) ≤ a - 2.5 by linarith)
      (show (0 : ℝ) ≤ 10 - 2 * a by linarith),
    mul_nonneg (show (0 : ℝ) ≤ c - b by linarith) hb0]

/-- Vertical selection: given a column `k` at horizontal distance `a ≤ 3.75`
from `px` and its parity-opposite neighbour `kadj` at distance `7.5 - a`,
one of the two lattice heights around `py` combines with one of the two
columns into a parity-mismatched center within distance 5. -/
theorem vertical_pick (py c : ℝ) (hc2 : c ^ 2 = 75 / 4) (hcpos : 0 < c)
    (u : ℕ) (hu : u ≤ 23)
    (hule : (u : ℝ) * c ≤ py) (hult : py < ((u : ℝ) + 1) * c)
    (k kadj : ℕ) (hkpar : k % 2 ≠ kadj % 2)
    (a : ℝ) (ha0 : 0 ≤ a) (ha : a ≤ 3.75)
    (px : ℝ)
    (hsq1 : (px - k * 7.5) ^ 2 = a ^ 2)
    (hsq2 : (px - kadj * 7.5) ^ 2 = (7.5 - a) ^ 2) :
    ∃ n kk : ℕ, n ≤ 24 ∧ (kk = k ∨ kk = kadj) ∧ n % 2 ≠ kk % 2 ∧
      (px - kk * 7.5) ^ 2 + (py - n * c) ^ 2 ≤ 25 := by
  by_cases hp : u % 2 = k % 2
  · -- the parity-matching height for column `k` is `(u+1)·c`
    have hb0 : 0 ≤ ((u : ℝ) + 1) * c - py := by linarith
    have hbc : ((u : ℝ) + 1) * c - py ≤ c := by nlinarith
    by_cases hnear : a ^ 2 + (((u : ℝ) + 1) * c - py) ^ 2 ≤ 25
    · refine ⟨u + 1, k, by omega, Or.inl rfl, by omega, ?_⟩
      have hsq3 : (py - ((u + 1 : ℕ) : ℝ) * c) ^ 2 =
          (((u : ℝ) + 1) * c - py) ^ 2 := by
        push_cast
        ring
      rw [hsq1, hsq3]
      exact hnear
    · push_neg at hnear
      refine ⟨u, kadj, by omega, Or.inr rfl, by omega, ?_⟩
      have hsq3 : (py - (u : ℝ) * c) ^ 2 =
          (c - (((u : ℝ) + 1) * c - py)) ^ 2 := by ring
      rw [hsq2, hsq3]
      exact far_cell_bound a (((u : ℝ) + 1) * c - py) c hc2 ha0 ha hb0 hbc
        (le_of_lt hnear)
  · -- the parity-matching height for column `k` is `u·c`
    have hb0 : 0 ≤ py - (u : ℝ) * c := by linarith
    have hbc : py - (u : ℝ) * c ≤ c := by nlinarith
    by_cases hnear : a ^ 2 + (py - (u : ℝ) * c) ^ 2 ≤ 25
    · refine ⟨u, k, by omega, Or.inl rfl, by omega, ?_⟩
      rw [hsq1]
      exact hnear
    · push_neg at hnear
      refine ⟨u + 1, kadj, by omega, Or.inr rfl, by omega, ?_⟩
      have hsq3 : (py - ((u + 1 : ℕ) : ℝ) * c) ^ 2 =
          (c - (py - (u : ℝ) * c)) ^ 2 := by
        push_cast
        ring
      rw [hsq2, hsq3]
      exact far_cell_bound a (py - (u : ℝ) * c) c hc2 ha0 ha hb0 hbc
        (le_of_lt hnear)

/-- Every point of `[0,100)²` is within distance 5 of a parity-mismatched
lattice center `(7.5·k, n·√3·5/2)` with `n ≤ 24` and `k ≤ 14`. -/
theorem coverage_arith (px py : ℝ) (hx0 : 0 ≤ px) (hx1 : px < 100)
    (hy0 : 0 ≤ py) (hy1 : py < 100) :
    ∃ n k : ℕ, n ≤ 24 ∧ k ≤ 14 ∧ n % 2 ≠ k % 2 ∧
      (px - k * 7.5) ^ 2 + (py - n * (Real.sqrt 3 * 5 / 2)) ^ 2 ≤ 25 := by
  have hs3 : Real.sqrt 3 ^ 2 = 3 := Real.sq_sqrt (by norm_num)
  have hcpos : (0 : ℝ) < Real.sqrt 3 * 5 / 2 := by
    have := Real.sqrt_pos.mpr (show (0 : ℝ) < 3 by norm_num)
    positivity
  have hc2 : (Real.sqrt 3 * 5 / 2) ^ 2 = 75 / 4 := by
    have hexp : (Real.sqrt 3 * 5 / 2) ^ 2 = Real.sqrt 3 ^ 2 * 25 / 4 := by
      ring
    rw [hexp, hs3]
    norm_num
  have hclb : (25 : ℝ) / 6 < Real.sqrt 3 * 5 / 2 := by
    nlinarith [hc2, hcpos]
  -- the nearest column strip
  have hk0le : (⌊px / 7.5⌋₊ : ℝ) * 7.5 ≤ px := by
    have hfl := Nat.floor_le (show (0 : ℝ) ≤ px / 7.5 by positivity)
    rw [le_div_iff (by norm_num : (0 : ℝ) < 7.5)] at hfl
    exact hfl
  have hk0lt : px < ((⌊px / 7.5⌋₊ : ℝ) + 1) * 7.5 := by
    have hfl := Nat.lt_floor_add_one (px / 7.5)
    rw [div_lt_iff (by norm_num : (0 : ℝ) < 7.5)] at hfl
    exact hfl
  have hk0_13 : ⌊px / 7.5⌋₊ ≤ 13 := by
    have : ⌊px / 7.5⌋₊ < 14 := by
      rw [Nat.floor_lt (by positivity)]
      rw [div_lt_iff (by norm_num : (0 : ℝ) < 7.5)]
      linarith
    omega
  -- the vertical lattice interval
  have hule : (⌊py / (Real.sqrt 3 * 5 / 2)⌋₊ : ℝ) * (Real.sqrt 3 * 5 / 2) ≤
      py := by
    have hfl := Nat.floor_le (show (0 : ℝ) ≤ py / (Real.sqrt 3 * 5 / 2) by
      positivity)
    rw [le_div_iff hcpos] at hfl
    exact hfl
  have hult : py < ((⌊py / (Real.sqrt 3 * 5 / 2)⌋₊ : ℝ) + 1) *
      (Real.sqrt 3 * 5 / 2) := by
    have hfl := Nat.lt_floor_add_one (py / (Real.sqrt 3 * 5 / 2))
    rw [div_lt_iff hcpos] at hfl
    exact hfl
  have hu23 : ⌊py / (Real.sqrt 3 * 5 / 2)⌋₊ ≤ 23 := by
    have : ⌊py / (Real.sqrt 3 * 5 / 2)⌋₊ < 24 := by
      rw [Nat.floor_lt (by positivity)]
      rw [div_lt_iff hcpos]
      nlinarith [hclb]
    omega
  by_cases hside : px - (⌊px / 7.5⌋₊ : ℝ) * 7.5 ≤ 3.75
  · -- stay in column `k0`; the diagonal neighbour is `k0 + 1`
    obtain ⟨n, kk, hn, hor, hpar, hbound⟩ := vertical_pick py
      (Real.sqrt 3 * 5 / 2) hc2 hcpos ⌊py / (Real.sqrt 3 * 5 / 2)⌋₊ hu23
      hule hult ⌊px / 7.5⌋₊ (⌊px / 7.5⌋₊ + 1) (by omega)
      (px - (⌊px / 7.5⌋₊ : ℝ) * 7.5) (by linarith) hside px (by ring)
      (by push_cast; ring)
    refine ⟨n, kk, hn, ?_, hpar, hbound⟩
    rcases hor with h | h <;> omega
  · -- move to column `k0 + 1`; the diagonal neighbour is `k0`
    push_neg at hside
    obtain ⟨n, kk, hn, hor, hpar, hbound⟩ := vertical_pick py
      (Real.sqrt 3 * 5 / 2) hc2 hcpos ⌊py / (Real.sqrt 3 * 5 / 2)⌋₊ hu23
      hule hult (⌊px / 7.5⌋₊ + 1) ⌊px / 7.5⌋₊ (by omega)
      (((⌊px / 7.5⌋₊ : ℝ) + 1) * 7.5 - px) (by linarith) (by linarith) px
      (by push_cast; ring) (by push_cast; ring)
    refine ⟨n, kk, hn, ?_, hpar, hbound⟩
    rcases hor with h | h <;> omega

/-- The hex emitted at step `j` of the inner renderer loop sits at
`x + j·hSpacing`, with the half-height shift determined by the parity of the
incremented counter. -/
theorem overlayCols_mem (w rad hh hs : ℝ) (skip incl : List (List (Point ℝ)))
    (yBase : ℝ) (row : ℕ) (hhs : 0 < hs) :
    ∀ (j fuel : ℕ) (x : ℝ) (counter : ℕ), j < fuel →
      x + j * hs < w + hs * 2 →
      ∃ hex ∈ (overlayCols w rad hh hs skip incl yBase row fuel x counter).1,
        hex.x = x + j * hs ∧
        hex.y = yBase + (if (counter + j + 1) % 2 == 0 then hh / 2 else 0) := by
  intro j
  induction j with
  | zero =>
    intro fuel x counter hj hg
    cases fuel with
    | zero => exact absurd hj (Nat.not_lt_zero _)
    | succ fuel =>
      have hg0 : x < w + hs * 2 := by
        push_cast at hg
        simpa using hg
      refine ⟨overlayHexAt rad hh skip incl yBase row x (counter + 1),
        ?_, ?_, ?_⟩
      · rw [overlayCols, if_pos hg0]
        exact List.mem_cons_self _ _
      · show x = x + (0 : ℕ) * hs
        push_cast
        ring
      · show yBase + (if (counter + 1) % 2 == 0 then hh / 2 else 0) =
          yBase + (if (counter + 0 + 1) % 2 == 0 then hh / 2 else 0)
        norm_num
  | succ j ih =>
    intro fuel x counter hj hg
    cases fuel with
    | zero => exact absurd hj (Nat.not_lt_zero _)
    | succ fuel =>
      have hg0 : x < w + hs * 2 := by
        push_cast at hg
        nlinarith
      obtain ⟨hex, hmem, hx, hy⟩ := ih fuel (x + hs) (counter + 1) (by omega)
        (by push_cast at hg ⊢; linarith)
      refine ⟨hex, ?_, ?_, ?_⟩
      · rw [overlayCols, if_pos hg0]
        exact List.mem_cons_of_mem _ hmem
      · rw [hx]
        push_cast
        ring
      · rw [hy]
        have hidx : counter + 1 + j + 1 = counter + (j + 1) + 1 := by omega
        rw [hidx]

/-- Whatever the `n`-th iteration of the row loop puts into its inner list
is part of the renderer's output, provided the guard still holds at row
`n`. -/
theorem overlayRows_mem (w h : ℝ) (sp : Spacing)
    (skip incl : List (List (Point ℝ))) (hv : 0 < sp.vSpacing) :
    ∀ (n fuel : ℕ) (y : ℝ) (row : ℕ) (hex : OverlayHex), n < fuel →
      y + n * (sp.vSpacing / 2) < h + sp.vSpacing →
      hex ∈ (overlayCols w sp.hexRadius sp.hexHeight sp.hSpacing skip incl
        (y + n * (sp.vSpacing / 2) +
          (if (row + n) % 2 == 0 then 0 else sp.vSpacing / 2)) (row + n)
        (fuel - n - 1) 0 0).1 →
      hex ∈ (overlayRows w h sp skip incl fuel y row).1 := by
  intro n
  induction n with
  | zero =>
    intro fuel y row hex hn hg hmem
    cases fuel with
    | zero => exact absurd hn (Nat.not_lt_zero _)
    | succ fuel =>
      have hg0 : y < h + sp.vSpacing := by
        push_cast at hg
        simpa using hg
      rw [overlayRows, if_pos hg0]
      apply List.mem_append_left
      have harg : y + ((0 : ℕ) : ℝ) * (sp.vSpacing / 2) +
          (if (row + 0) % 2 == 0 then 0 else sp.vSpacing / 2) =
          y + (if row % 2 == 0 then 0 else sp.vSpacing / 2) := by
        norm_num
      have hfuel : fuel + 1 - 0 - 1 = fuel := by omega
      have hrow : row + 0 = row := by omega
      rw [harg, hfuel, hrow] at hmem
      exact hmem
  | succ n ih =>
    intro fuel y row hex hn hg hmem
    cases fuel with
    | zero => exact absurd hn (Nat.not_lt_zero _)
    | succ fuel =>
      have hg0 : y < h + sp.vSpacing := by
        push_cast at hg
        nlinarith
      rw [overlayRows, if_pos hg0]
      apply List.mem_append_right
      have h1 : row + (n + 1) = row + 1 + n := by omega
      have h2 : fuel + 1 - (n + 1) - 1 = fuel - n - 1 := by omega
      have h3 : y + ((n + 1 : ℕ) : ℝ) * (sp.vSpacing / 2) =
          y + sp.vSpacing / 2 + (n : ℝ) * (sp.vSpacing / 2) := by
        push_cast
        ring
      rw [h1, h2, h3] at hmem
      exact ih fuel (y + sp.vSpacing / 2) (row + 1) hex (by omega)
        (by push_cast at hg ⊢; linarith) hmem

/-- With mismatched row/column parity, exactly one of the two vertical
shifts applies, and the hex's center height is `n·(vSpacing/2)`. -/
theorem center_y_parity (v : ℝ) (n k : ℕ) (hpar : n % 2 ≠ k % 2) :
    -v / 2 + n * (v / 2) + (if (0 + n) % 2 == 0 then 0 else v / 2) +
      (if (0 + k + 1) % 2 == 0 then v / 2 else 0) = n * (v / 2) := by
  rcases Nat.even_or_odd n with he | ho
  · have hn : n % 2 = 0 := Nat.even_iff.mp he
    have hk1 : (k + 1) % 2 = 0 := by omega
    rw [if_pos (show ((0 + n) % 2 == 0) = true by simp [hn]),
      if_pos (show ((0 + k + 1) % 2 == 0) = true by simp [hk1])]
    ring
  · have hn : n % 2 = 1 := Nat.odd_iff.mp ho
    have hk1 : (k + 1) % 2 = 1 := by omega
    rw [if_neg (show ¬((0 + n) % 2 == 0) = true by simp [hn]),
      if_neg (show ¬((0 + k + 1) % 2 == 0) = true by simp [hk1])]
    ring

/-- C9: Grid coverage at default-like parameters — for
`width = height = 100`, `pixelsPerMile = 10`, `hexMiles = 1`
(`hexDiameter = 10`, `hexRadius = 5`), the enumeration finishes and every
pixel `(px, py)` of `[0,100) × [0,100)` lies within distance
`hexRadius = 5` of the center of some enumerated hex. -/
theorem grid_coverage (px py : ℝ) (hx0 : 0 ≤ px) (hx1 : px < 100)
    (hy0 : 0 ≤ py) (hy1 : py < 100) :
    (overlayHexGrid 64 100 100 10 1 [] []).2 = true ∧
      ∃ hex ∈ (overlayHexGrid 64 100 100 10 1 [] []).1,
        Real.sqrt ((px - hex.x) ^ 2 + (py - hex.y) ^ 2) ≤ 5 := by
  have hs3 : Real.sqrt 3 ^ 2 = 3 := Real.sq_sqrt (by norm_num)
  have hs3pos : (0 : ℝ) < Real.sqrt 3 := Real.sqrt_pos.mpr (by norm_num)
  have hhsv : (overlaySpacing 10 1).hSpacing = 7.5 := by
    show (0.75 : ℝ) * (2 * (10 * 1 / 2)) = 7.5
    norm_num
  have hvv : (overlaySpacing 10 1).vSpacing = Real.sqrt 3 * 5 := by
    show Real.sqrt 3 * ((10 : ℝ) * 1 / 2) = Real.sqrt 3 * 5
    norm_num
  have hvpos : (0 : ℝ) < (overlaySpacing 10 1).vSpacing := by
    rw [hvv]
    positivity
  have hhspos : (0 : ℝ) < (overlaySpacing 10 1).hSpacing := by
    rw [hhsv]
    norm_num
  have hinner : ∀ (fuel : ℕ) (yBase : ℝ) (row : ℕ), 16 < fuel →
      (overlayCols 100 (overlaySpacing 10 1).hexRadius
          (overlaySpacing 10 1).hexHeight (overlaySpacing 10 1).hSpacing
          [] [] yBase row fuel 0 0).2 = true ∧
        (overlayCols 100 (overlaySpacing 10 1).hexRadius
          (overlaySpacing 10 1).hexHeight (overlaySpacing 10 1).hSpacing
          [] [] yBase row fuel 0 0).1.length = 16 := by
    intro fuel yBase row hfuel
    apply overlayCols_run 100 (overlaySpacing 10 1).hexRadius
      (overlaySpacing 10 1).hexHeight (overlaySpacing 10 1).hSpacing [] []
      yBase row 16 fuel 0 0 hfuel
    · intro j hj
      have hj15 : (j : ℝ) ≤ 15 := by exact_mod_cast Nat.lt_succ_iff.mp hj
      rw [hhsv]
      nlinarith
    · rw [hhsv]
      push_cast
      norm_num
  have hfin := overlayRows_run 100 100 (overlaySpacing 10 1) [] [] 16 hinner
    27 64 (-(overlaySpacing 10 1).vSpacing / 2) 0 (by norm_num)
    (fun j hj => by
      have hj26 : (j : ℝ) ≤ 26 := by exact_mod_cast Nat.lt_succ_iff.mp hj
      rw [hvv]
      nlinarith [hs3, hs3pos, sq_nonneg (100 - 57.5 * Real.sqrt 3)])
    (by
      rw [hvv]
      push_cast
      intro hcon
      nlinarith [hs3, hs3pos])
  constructor
  · exact hfin.1
  · obtain ⟨n, k, hn24, hk14, hpar, hdist⟩ :=
      coverage_arith px py hx0 hx1 hy0 hy1
    have hgcol : (0 : ℝ) + k * (overlaySpacing 10 1).hSpacing <
        100 + (overlaySpacing 10 1).hSpacing * 2 := by
      rw [hhsv]
      have hk : (k : ℝ) ≤ 14 := by exact_mod_cast hk14
      nlinarith
    have hgrow : -(overlaySpacing 10 1).vSpacing / 2 +
        n * ((overlaySpacing 10 1).vSpacing / 2) <
        100 + (overlaySpacing 10 1).vSpacing := by
      rw [hvv]
      have hn : (n : ℝ) ≤ 24 := by exact_mod_cast hn24
      nlinarith [hs3, hs3pos, sq_nonneg (100 - 52.5 * Real.sqrt 3)]
    obtain ⟨hex, hmem, hxeq, hyeq⟩ := overlayCols_mem 100
      (overlaySpacing 10 1).hexRadius (overlaySpacing 10 1).hexHeight
      (overlaySpacing 10 1).hSpacing [] []
      (-(overlaySpacing 10 1).vSpacing / 2 +
        n * ((overlaySpacing 10 1).vSpacing / 2) +
        (if (0 + n) % 2 == 0 then 0 else (overlaySpacing 10 1).vSpacing / 2))
      (0 + n) hhspos k (64 - n - 1) 0 0 (by omega) hgcol
    have hmem2 : hex ∈ (overlayRows 100 100 (overlaySpacing 10 1) [] [] 64
        (-(overlaySpacing 10 1).vSpacing / 2) 0).1 :=
      overlayRows_mem 100 100 (overlaySpacing 10 1) [] [] hvpos n 64
        (-(overlaySpacing 10 1).vSpacing / 2) 0 hex (by omega) hgrow hmem
    refine ⟨hex, hmem2, ?_⟩
    have hx2 : hex.x = (k : ℝ) * 7.5 := by
      rw [hxeq, hhsv]
      ring
    have hhv : (overlaySpacing 10 1).hexHeight =
        (overlaySpacing 10 1).vSpacing := rfl
    have hy2 : hex.y = (n : ℝ) * (Real.sqrt 3 * 5 / 2) := by
      rw [hyeq, hhv]
      have hcp := center_y_parity ((overlaySpacing 10 1).vSpacing) n k hpar
      rw [hcp, hvv]
    have hdist2 : (px - hex.x) ^ 2 + (py - hex.y) ^ 2 ≤ 25 := by
      rw [hx2, hy2]
      exact hdist
    calc Real.sqrt ((px - hex.x) ^ 2 + (py - hex.y) ^ 2) ≤ Real.sqrt 25 :=
        Real.sqrt_le_sqrt hdist2
      _ = 5 := by
        rw [show (25 : ℝ) = 5 ^ 2 by norm_num]
        exact Real.sqrt_sq (by norm_num)

theorem grid_coverage_witness :
    ((0 : ℝ) ≤ 50 ∧ (50 : ℝ) < 100) ∧
      ((overlayHexGrid 64 100 100 10 1 [] []).2 = true ∧
        ∃ hex ∈ (overlayHexGrid 64 100 100 10 1 [] []).1,
          Real.sqrt ((50 - hex.x) ^ 2 + (50 - hex.y) ^ 2) ≤ 5) :=
  ⟨⟨by norm_num, by norm_num⟩,
    grid_coverage 50 50 (by norm_num) (by norm_num) (by norm_num)
      (by norm_num)⟩
